import Mathlib

/-!
Verification of the CSV-import pipeline in `import_csvs_to_sheets.py`
(repository bobruddy/agimba).

The pure core of the program is shallowly embedded here:

* `normalize_phone`            — lines 75-81 of `import_csvs_to_sheets.py`
* `build_global_email_phone_map` (per-record step `add_row`) — lines 248-262
* `qa_phone_numbers_with_global_map` — lines 110-123
* the per-row filter / rename / phone / date loop of `import_csv_to_sheet`
  — lines 141-170
* the per-file error-propagation skeleton of `import_csv_to_sheet` and the
  `main` loop — lines 125-229 and 314-316

Python strings are modelled as Lean `String`; where the code inspects
characters we work on `String.toList`.  Python's `str.lower`, `str.strip`,
`str.replace` and the regex `re.sub(r"\D", "", s)` are re-implemented below
on character lists (ASCII model, which covers every string the program
manipulates).  CSV rows (Python dicts produced by `csv.DictReader`) are
modelled as association lists `List (String × String)` with the usual
first-match lookup; Python dict insertion order is preserved by the model.
-/

/-- Python `str.lower()` (ASCII model): lower-case every character. -/
def pyLower (s : String) : String :=
  String.mk (s.toList.map Char.toLower)

/-- Python `str.strip()` (no argument): remove leading and trailing
whitespace characters. -/
def pyStrip (s : String) : String :=
  String.mk (((s.toList.dropWhile Char.isWhitespace).reverse.dropWhile
      Char.isWhitespace).reverse)

/-- The character list left by Python `re.sub(r"\D", "", s)`:
every non-digit character of `s` removed (ASCII digits 0-9). -/
def stripNonDigits (s : String) : List Char :=
  s.toList.filter Char.isDigit

/-- One left-to-right, non-overlapping replacement pass, as performed by
Python `str.replace(pat, repl)` for a non-empty pattern `pat`.  Each step
consumes at least one character, so running with `fuel` at least the
input's length never reaches the fuel-exhaustion base case (which returns
the remaining — by the invariant, empty — list); fuel makes the recursion
structural. -/
def replaceAux (pat repl : List Char) : ℕ → List Char → List Char
  | 0, l => l
  | _ + 1, [] => []
  | fuel + 1, c :: rest =>
    if pat.isPrefixOf (c :: rest) then
      repl ++ replaceAux pat repl fuel (rest.drop (pat.length - 1))
    else
      c :: replaceAux pat repl fuel rest

/-- Python `s.replace(pat, repl)` (used with the non-empty patterns
`"string"` and `"__"`). -/
def pyReplace (s pat repl : String) : String :=
  String.mk (replaceAux pat.toList repl.toList s.toList.length s.toList)

/-- Python substring test `needle in hay` on strings. -/
def strContainsAux (needle : List Char) : List Char → Bool
  | [] => needle.isEmpty
  | c :: rest => needle.isPrefixOf (c :: rest) || strContainsAux needle rest

/-- `strContains hay needle` models Python `needle in hay`. -/
def strContains (hay needle : String) : Bool :=
  strContainsAux needle.toList hay.toList

/-- The leading-country-code step of `normalize_phone` (line 77-78):
`if digits.startswith('1') and len(digits) == 11: digits = digits[1:]`. -/
def leadStrip (d : List Char) : List Char :=
  if d.head? = some '1' ∧ d.length = 11 then d.tail else d

/-- The characters of `f"{digits[0:3]}.{digits[3:6]}.{digits[6:10]}"`
(line 80): slice `[0:3]` is `take 3`, `[3:6]` is `take 3` after `drop 3`,
`[6:10]` is `take 4` after `drop 6`. -/
def fmtList (d : List Char) : List Char :=
  d.take 3 ++ '.' :: ((d.drop 3).take 3 ++ '.' :: (d.drop 6).take 4)

/-- The formatted phone string `f"{digits[0:3]}.{digits[3:6]}.{digits[6:10]}"`. -/
def fmtPhone (d : List Char) : String :=
  String.mk (fmtList d)

/-- `normalize_phone` (lines 75-81).  The Python parameter may be `None`
(the code guards with `phone or ''`), hence the `Option String` argument;
`none` models Python `None` and the result `none` models returning `None`. -/
def normalize_phone (phone : Option String) : Option String :=
  let digits := leadStrip (stripNonDigits (phone.getD ""))
  if digits.length = 10 then some (fmtPhone digits) else none

/-- The `NormalizedPhone` shape of the spec: exactly `DDD.DDD.DDDD`
(ten ASCII digits in dot-separated groups of 3-3-4). -/
def isNormalizedPhone (r : String) : Bool :=
  match r.toList with
  | [a, b, c, p, d, e, f, q, g, h, i, j] =>
      p == '.' && q == '.' && [a, b, c, d, e, f, g, h, i, j].all Char.isDigit
  | _ => false

section NormalizeLemmas

lemma exists_cons_of_length_succ {α : Type} (l : List α) (n : ℕ)
    (h : l.length = n + 1) : ∃ a t, l = a :: t ∧ t.length = n := by
  cases l with
  | nil => simp at h
  | cons a t => exact ⟨a, t, rfl, by simpa using h⟩

lemma len10_destruct (d : List Char) (h : d.length = 10) :
    ∃ c0 c1 c2 c3 c4 c5 c6 c7 c8 c9,
      d = [c0, c1, c2, c3, c4, c5, c6, c7, c8, c9] := by
  obtain ⟨c0, t0, rfl, h1⟩ := exists_cons_of_length_succ d 9 h
  obtain ⟨c1, t1, rfl, h2⟩ := exists_cons_of_length_succ t0 8 h1
  obtain ⟨c2, t2, rfl, h3⟩ := exists_cons_of_length_succ t1 7 h2
  obtain ⟨c3, t3, rfl, h4⟩ := exists_cons_of_length_succ t2 6 h3
  obtain ⟨c4, t4, rfl, h5⟩ := exists_cons_of_length_succ t3 5 h4
  obtain ⟨c5, t5, rfl, h6⟩ := exists_cons_of_length_succ t4 4 h5
  obtain ⟨c6, t6, rfl, h7⟩ := exists_cons_of_length_succ t5 3 h6
  obtain ⟨c7, t7, rfl, h8⟩ := exists_cons_of_length_succ t6 2 h7
  obtain ⟨c8, t8, rfl, h9⟩ := exists_cons_of_length_succ t7 1 h8
  obtain ⟨c9, t9, rfl, h10⟩ := exists_cons_of_length_succ t8 0 h9
  rw [List.length_eq_zero] at h10
  subst h10
  exact ⟨c0, c1, c2, c3, c4, c5, c6, c7, c8, c9, rfl⟩

lemma mem_leadStrip_isDigit (s : String) {c : Char}
    (hc : c ∈ leadStrip (stripNonDigits s)) : c.isDigit = true := by
  unfold leadStrip at hc
  split at hc
  · exact List.of_mem_filter (List.mem_of_mem_tail hc)
  · exact List.of_mem_filter hc

lemma fmtList_explicit (c0 c1 c2 c3 c4 c5 c6 c7 c8 c9 : Char) :
    fmtList [c0, c1, c2, c3, c4, c5, c6, c7, c8, c9] =
      [c0, c1, c2, '.', c3, c4, c5, '.', c6, c7, c8, c9] := rfl

lemma filter_fmtList (d : List Char) (h10 : d.length = 10)
    (hd : ∀ c ∈ d, c.isDigit = true) :
    (fmtList d).filter Char.isDigit = d := by
  obtain ⟨c0, c1, c2, c3, c4, c5, c6, c7, c8, c9, rfl⟩ := len10_destruct d h10
  have h0 := hd c0 (by simp)
  have h1 := hd c1 (by simp)
  have h2 := hd c2 (by simp)
  have h3 := hd c3 (by simp)
  have h4 := hd c4 (by simp)
  have h5 := hd c5 (by simp)
  have h6 := hd c6 (by simp)
  have h7 := hd c7 (by simp)
  have h8 := hd c8 (by simp)
  have h9 := hd c9 (by simp)
  have hdot : ('.' : Char).isDigit = false := rfl
  rw [fmtList_explicit]
  simp [List.filter, h0, h1, h2, h3, h4, h5, h6, h7, h8, h9, hdot]

lemma isNormalizedPhone_fmtPhone (d : List Char) (h10 : d.length = 10)
    (hd : ∀ c ∈ d, c.isDigit = true) :
    isNormalizedPhone (fmtPhone d) = true := by
  obtain ⟨c0, c1, c2, c3, c4, c5, c6, c7, c8, c9, rfl⟩ := len10_destruct d h10
  have h0 := hd c0 (by simp)
  have h1 := hd c1 (by simp)
  have h2 := hd c2 (by simp)
  have h3 := hd c3 (by simp)
  have h4 := hd c4 (by simp)
  have h5 := hd c5 (by simp)
  have h6 := hd c6 (by simp)
  have h7 := hd c7 (by simp)
  have h8 := hd c8 (by simp)
  have h9 := hd c9 (by simp)
  simp [isNormalizedPhone, fmtPhone, fmtList_explicit,
    h0, h1, h2, h3, h4, h5, h6, h7, h8, h9]

lemma toList_fmtPhone (d : List Char) : (fmtPhone d).toList = fmtList d := rfl

end NormalizeLemmas

/-- **C1.** `normalize_phone` strips non-digits, drops a leading `1` from an
11-digit string, and then: a remaining 10-digit string is formatted as
`DDD.DDD.DDDD` (the same ten digits, in order, in dot-separated groups of
3-3-4); any other remaining digit count yields `none`.  The function is
total (it never raises), including on empty or absent (`None`) input. -/
theorem C1_normalize_phone_spec (s : Option String) :
    ((leadStrip (stripNonDigits (s.getD ""))).length = 10 →
      ∃ r, normalize_phone s = some r ∧ isNormalizedPhone r = true ∧
        (r.toList.filter Char.isDigit = leadStrip (stripNonDigits (s.getD "")))) ∧
    ((leadStrip (stripNonDigits (s.getD ""))).length ≠ 10 →
      normalize_phone s = none) := by
  constructor
  · intro h10
    refine ⟨fmtPhone (leadStrip (stripNonDigits (s.getD ""))), ?_, ?_, ?_⟩
    · simp [normalize_phone, h10]
    · exact isNormalizedPhone_fmtPhone _ h10 (fun c hc => mem_leadStrip_isDigit _ hc)
    · rw [toList_fmtPhone]
      exact filter_fmtList _ h10 (fun c hc => mem_leadStrip_isDigit _ hc)
  · intro hne
    simp [normalize_phone, hne]

/-- Witness for C1 at a concrete input: an 11-digit phone string with a
leading `1` and punctuation normalizes to `555.123.4567`. -/
theorem C1_witness :
    ∃ r, normalize_phone (some "1 (555) 123-4567") = some r ∧
      isNormalizedPhone r = true ∧
      (r.toList.filter Char.isDigit =
        leadStrip (stripNonDigits ((some "1 (555) 123-4567").getD ""))) :=
  (C1_normalize_phone_spec (some "1 (555) 123-4567")).1 (by decide)

section IdempotenceLemmas

lemma normalize_phone_some_shape {s : Option String} {r : String}
    (h : normalize_phone s = some r) :
    ∃ d : List Char, d.length = 10 ∧ (∀ c ∈ d, c.isDigit = true) ∧
      r = fmtPhone d := by
  have h' : (if (leadStrip (stripNonDigits (s.getD ""))).length = 10 then
      some (fmtPhone (leadStrip (stripNonDigits (s.getD "")))) else none) =
      some r := h
  split at h'
  · next h10 =>
    refine ⟨leadStrip (stripNonDigits (s.getD "")), h10,
      fun c hc => mem_leadStrip_isDigit _ hc, ?_⟩
    exact (Option.some_injective _ h').symm
  · exact absurd h' (by simp)

lemma stripNonDigits_fmtPhone (d : List Char) (h10 : d.length = 10)
    (hd : ∀ c ∈ d, c.isDigit = true) :
    stripNonDigits (fmtPhone d) = d := by
  unfold stripNonDigits
  rw [toList_fmtPhone]
  exact filter_fmtList d h10 hd

lemma leadStrip_of_length_ten {d : List Char} (h10 : d.length = 10) :
    leadStrip d = d := by
  unfold leadStrip
  rw [if_neg]
  rintro ⟨-, h11⟩
  omega

lemma normalize_phone_fmtPhone_fixed (d : List Char) (h10 : d.length = 10)
    (hd : ∀ c ∈ d, c.isDigit = true) :
    normalize_phone (some (fmtPhone d)) = some (fmtPhone d) := by
  unfold normalize_phone
  simp only [Option.getD_some, stripNonDigits_fmtPhone d h10 hd,
    leadStrip_of_length_ten h10, h10]
  simp

lemma isNormalizedPhone_destruct {r : String}
    (h : isNormalizedPhone r = true) :
    ∃ d : List Char, d.length = 10 ∧ (∀ c ∈ d, c.isDigit = true) ∧
      r = fmtPhone d := by
  obtain ⟨l⟩ := r
  unfold isNormalizedPhone at h
  split at h
  · next a b c p d e f q g h2 i j heq =>
    have hl : l = [a, b, c, p, d, e, f, q, g, h2, i, j] := heq
    simp only [Bool.and_eq_true, beq_iff_eq] at h
    obtain ⟨⟨hp, hq⟩, hall⟩ := h
    refine ⟨[a, b, c, d, e, f, g, h2, i, j], by simp, ?_, ?_⟩
    · exact fun x hx => List.all_eq_true.mp hall x hx
    · subst hp hq hl
      rfl
  · exact absurd h (by simp)

end IdempotenceLemmas

/-- **C10.** `normalize_phone` is idempotent on its own successful output:
whenever it returns `some r`, running it again on `r` returns `some r`;
equivalently, every string of the shape `DDD.DDD.DDDD` is a fixed point of
normalization. -/
theorem C10_normalize_phone_idempotent :
    (∀ (s : Option String) (r : String),
        normalize_phone s = some r → normalize_phone (some r) = some r) ∧
    (∀ r : String,
        isNormalizedPhone r = true → normalize_phone (some r) = some r) := by
  constructor
  · intro s r h
    obtain ⟨d, h10, hd, rfl⟩ := normalize_phone_some_shape h
    exact normalize_phone_fmtPhone_fixed d h10 hd
  · intro r h
    obtain ⟨d, h10, hd, rfl⟩ := isNormalizedPhone_destruct h
    exact normalize_phone_fmtPhone_fixed d h10 hd

/-- Witness for C10 at a concrete input: the successful output
`555.123.4567` of normalizing `5551234567` is itself a fixed point. -/
theorem C10_witness :
    normalize_phone (some "555.123.4567") = some "555.123.4567" :=
  C10_normalize_phone_idempotent.1 (some "5551234567") "555.123.4567"
    (by decide)

/-- A CSV row as produced by `csv.DictReader`: an ordered mapping from
field name to raw string value (Python dict, keys in header order). -/
abbrev Record := List (String × String)

/-- Python `row.get(k, '')` on a `DictReader` row. -/
def rowGet (row : Record) (k : String) : String :=
  (List.lookup k row).getD ""

/-- The email key computed by `build_global_email_phone_map` (line 255):
`row.get('email', '').strip().lower()`. -/
def emailKeyOf (row : Record) : String :=
  pyLower (pyStrip (rowGet row "email"))

/-- The digit candidate computed by lines 256-257:
`re.sub(r'\D', '', row.get('phone', '').strip())`. -/
def phoneDigitsOf (row : Record) : List Char :=
  stripNonDigits (pyStrip (rowGet row "phone"))

/-- The per-row body of `build_global_email_phone_map` (lines 255-261):
`if email and len(digits) == 10:` and, nested, `if email not in
email_phone_map:` append `email → formatted digits`.  Python dict
insertion appends the new key at the end; existing keys are never
touched by this function. -/
def add_row (m : List (String × String)) (row : Record) :
    List (String × String) :=
  if emailKeyOf row ≠ "" ∧ (phoneDigitsOf row).length = 10 ∧
      List.lookup (emailKeyOf row) m = none then
    m ++ [(emailKeyOf row, fmtPhone (phoneDigitsOf row))]
  else m

/-- `build_global_email_phone_map` (lines 248-262).  File enumeration and
CSV reading are external collaborators; the records of all files, in file
order then row order, are given as one flattened list. -/
def build_global_email_phone_map (rows : List Record) :
    List (String × String) :=
  rows.foldl add_row []

/-- The formatted phone of the first record in the sequence whose email
key is `k` and whose phone strips to exactly 10 digits (specification-side
helper used to state first-valid-wins). -/
def firstValidPhone (k : String) : List Record → Option String
  | [] => none
  | r :: rows =>
    if emailKeyOf r = k ∧ (phoneDigitsOf r).length = 10 then
      some (fmtPhone (phoneDigitsOf r))
    else firstValidPhone k rows

section GlobalMapLemmas

lemma lookup_append_some {k : String} {m l : List (String × String)} {v : String}
    (h : List.lookup k m = some v) : List.lookup k (m ++ l) = some v := by
  induction m with
  | nil => simp [List.lookup] at h
  | cons e m ih =>
    obtain ⟨ek, ev⟩ := e
    by_cases hk : k = ek
    · subst hk
      simpa [List.lookup] using h
    · have hbeq : (k == ek) = false := beq_false_of_ne hk
      simp only [List.cons_append, List.lookup, hbeq] at h ⊢
      exact ih h

lemma lookup_append_single_self {k : String} {m : List (String × String)}
    {v : String} (h : List.lookup k m = none) :
    List.lookup k (m ++ [(k, v)]) = some v := by
  induction m with
  | nil => simp [List.lookup]
  | cons e m ih =>
    obtain ⟨ek, ev⟩ := e
    by_cases hk : k = ek
    · subst hk
      simp [List.lookup] at h
    · have hbeq : (k == ek) = false := beq_false_of_ne hk
      simp only [List.lookup, hbeq] at h
      simp only [List.cons_append, List.lookup, hbeq]
      exact ih h

lemma lookup_append_single_ne {k e : String} {m : List (String × String)}
    {v : String} (hne : e ≠ k) (h : List.lookup k m = none) :
    List.lookup k (m ++ [(e, v)]) = none := by
  induction m with
  | nil => simp [List.lookup, beq_false_of_ne (Ne.symm hne)]
  | cons p m ih =>
    obtain ⟨pk, pv⟩ := p
    by_cases hk : k = pk
    · subst hk
      simp [List.lookup] at h
    · have hbeq : (k == pk) = false := beq_false_of_ne hk
      simp only [List.lookup, hbeq] at h
      simp only [List.cons_append, List.lookup, hbeq]
      exact ih h

lemma lookup_none_not_mem_keys {k : String} {m : List (String × String)}
    (h : List.lookup k m = none) : k ∉ m.map Prod.fst := by
  induction m with
  | nil => simp
  | cons e m ih =>
    obtain ⟨ek, ev⟩ := e
    by_cases hk : k = ek
    · subst hk
      simp [List.lookup] at h
    · have hbeq : (k == ek) = false := beq_false_of_ne hk
      simp only [List.lookup, hbeq] at h
      simp only [List.map_cons, List.mem_cons, not_or]
      exact ⟨hk, ih h⟩

lemma foldl_add_row_lookup_some {k v : String} :
    ∀ (rows : List Record) (m : List (String × String)),
      List.lookup k m = some v →
      List.lookup k (rows.foldl add_row m) = some v := by
  intro rows
  induction rows with
  | nil => intro m hm; simpa using hm
  | cons r rows ih =>
    intro m hm
    simp only [List.foldl_cons]
    apply ih
    unfold add_row
    split
    · exact lookup_append_some hm
    · exact hm

lemma foldl_add_row_lookup_none {k : String} (hk : k ≠ "") :
    ∀ (rows : List Record) (m : List (String × String)),
      List.lookup k m = none →
      List.lookup k (rows.foldl add_row m) = firstValidPhone k rows := by
  intro rows
  induction rows with
  | nil => intro m hm; simpa [firstValidPhone] using hm
  | cons r rows ih =>
    intro m hm
    simp only [List.foldl_cons]
    by_cases hmatch : emailKeyOf r = k ∧ (phoneDigitsOf r).length = 10
    · obtain ⟨hek, hlen⟩ := hmatch
      have hcond : emailKeyOf r ≠ "" ∧ (phoneDigitsOf r).length = 10 ∧
          List.lookup (emailKeyOf r) m = none := by
        refine ⟨hek ▸ hk, hlen, hek ▸ hm⟩
      rw [add_row, if_pos hcond]
      have hstep : List.lookup k
          (m ++ [(emailKeyOf r, fmtPhone (phoneDigitsOf r))]) =
          some (fmtPhone (phoneDigitsOf r)) := by
        rw [hek]
        exact lookup_append_single_self hm
      rw [foldl_add_row_lookup_some rows _ hstep, firstValidPhone,
        if_pos ⟨hek, hlen⟩]
    · have hnext : List.lookup k (add_row m r) = none := by
        unfold add_row
        split
        · next hcond =>
          have hne : emailKeyOf r ≠ k := by
            intro hek
            exact hmatch ⟨hek, hcond.2.1⟩
          exact lookup_append_single_ne hne hm
        · exact hm
      rw [ih _ hnext, firstValidPhone, if_neg hmatch]

lemma foldl_add_row_keys_nodup :
    ∀ (rows : List Record) (m : List (String × String)),
      (m.map Prod.fst).Nodup → ((rows.foldl add_row m).map Prod.fst).Nodup := by
  intro rows
  induction rows with
  | nil => intro m hm; simpa using hm
  | cons r rows ih =>
    intro m hm
    simp only [List.foldl_cons]
    apply ih
    unfold add_row
    split
    · next hcond =>
      simp only [List.map_append, List.map_cons, List.map_nil]
      rw [List.nodup_append]
      refine ⟨hm, List.nodup_singleton _, ?_⟩
      intro a ha hb
      simp only [List.mem_singleton] at hb
      subst hb
      exact lookup_none_not_mem_keys hcond.2.2 ha
    · exact hm

end GlobalMapLemmas

section StripLemmas

lemma ws_not_digit {c : Char} (h : c.isWhitespace = true) :
    c.isDigit = false := by
  simp [Char.isWhitespace] at h
  rcases h with ((rfl | rfl) | rfl) | rfl <;> decide

lemma filter_dropWhile_ws (l : List Char) :
    (l.dropWhile Char.isWhitespace).filter Char.isDigit =
      l.filter Char.isDigit := by
  induction l with
  | nil => rfl
  | cons c t ih =>
    cases hc : c.isWhitespace with
    | true =>
      rw [List.dropWhile_cons, if_pos hc, ih,
        List.filter_cons_of_neg (by simp [ws_not_digit hc])]
    | false => rw [List.dropWhile_cons, if_neg (by simp [hc])]

lemma filter_reverse_eq (p : Char → Bool) (l : List Char) :
    l.reverse.filter p = (l.filter p).reverse := by
  induction l with
  | nil => rfl
  | cons c t ih =>
    cases hc : p c with
    | true => simp [List.filter_cons, List.filter_append, hc, ih]
    | false => simp [List.filter_cons, List.filter_append, hc, ih]

lemma stripNonDigits_pyStrip (s : String) :
    stripNonDigits (pyStrip s) = stripNonDigits s := by
  unfold stripNonDigits pyStrip
  show (((s.toList.dropWhile Char.isWhitespace).reverse.dropWhile
      Char.isWhitespace).reverse).filter Char.isDigit =
    s.toList.filter Char.isDigit
  rw [filter_reverse_eq, filter_dropWhile_ws, filter_reverse_eq,
    List.reverse_reverse, filter_dropWhile_ws]

end StripLemmas

/-- Counterexample to **C2** as stated: two records that share the same
EmailKey (here the empty key, from an empty `email` field) and whose
phones both strip to exactly 10 digits produce an *empty* map — the map
does not hold the earlier record's phone, because the builder also
requires the EmailKey to be non-empty (line 258: `if email and ...`). -/
theorem C2_counterexample :
    emailKeyOf [("email", ""), ("phone", "5551234567")] =
      emailKeyOf [("email", ""), ("phone", "5559876543")] ∧
    (phoneDigitsOf [("email", ""), ("phone", "5551234567")]).length = 10 ∧
    (phoneDigitsOf [("email", ""), ("phone", "5559876543")]).length = 10 ∧
    build_global_email_phone_map
      [[("email", ""), ("phone", "5551234567")],
       [("email", ""), ("phone", "5559876543")]] = [] := by
  decide

/-- **C2 (amended).** For records with a *non-empty* shared EmailKey the
builder is first-valid-wins: the finished map binds every non-empty
EmailKey that has at least one 10-digit record to the formatted phone of
the *earliest* such record (so later records — valid or not — never
overwrite it), and the map's keys are pairwise distinct, so it holds at
most one phone per email. -/
theorem C2_first_valid_wins (rows : List Record) (k ph : String)
    (hk : k ≠ "") (hfirst : firstValidPhone k rows = some ph) :
    List.lookup k (build_global_email_phone_map rows) = some ph ∧
    ((build_global_email_phone_map rows).map Prod.fst).Nodup := by
  constructor
  · rw [build_global_email_phone_map,
      foldl_add_row_lookup_none hk rows [] rfl]
    exact hfirst
  · exact foldl_add_row_keys_nodup rows [] (by simp)

/-- Witness for C2 (amended) at concrete records: the first record's
phone `(555) 123-4567` wins over the later `555-987-6543` for the shared
key `a@x.com` (note the first record's email only matches after
trim/lowercase). -/
theorem C2_witness :
    List.lookup "a@x.com" (build_global_email_phone_map
      [[("email", "A@X.com "), ("phone", "(555) 123-4567")],
       [("email", "a@x.com"), ("phone", "555-987-6543")]]) =
      some "555.123.4567" ∧
    ((build_global_email_phone_map
      [[("email", "A@X.com "), ("phone", "(555) 123-4567")],
       [("email", "a@x.com"), ("phone", "555-987-6543")]]).map
        Prod.fst).Nodup :=
  C2_first_valid_wins _ "a@x.com" "555.123.4567" (by decide) (by decide)

/-- **C4.** The index builder applies the strict 10-digit-only rule with
no leading-`1` stripping: a record changes the map only when its EmailKey
is non-empty and its phone field strips to exactly 10 digits, and any
record whose phone strips to an 11-digit string starting with `1` adds no
entry — although `normalize_phone` accepts that very same phone string.
The two validity checks are genuinely distinct. -/
theorem C4_strict_ten_digit_rule (m : List (String × String)) (row : Record) :
    (add_row m row ≠ m →
      emailKeyOf row ≠ "" ∧ (phoneDigitsOf row).length = 10) ∧
    ((phoneDigitsOf row).length = 11 →
      (phoneDigitsOf row).head? = some '1' →
      add_row m row = m ∧
      ∃ r, normalize_phone (some (rowGet row "phone")) = some r) := by
  constructor
  · intro hne
    unfold add_row at hne
    by_cases hcond : emailKeyOf row ≠ "" ∧ (phoneDigitsOf row).length = 10 ∧
        List.lookup (emailKeyOf row) m = none
    · exact ⟨hcond.1, hcond.2.1⟩
    · rw [if_neg hcond] at hne
      exact absurd rfl hne
  · intro h11 h1
    have hdig : stripNonDigits (rowGet row "phone") = phoneDigitsOf row :=
      (stripNonDigits_pyStrip _).symm
    constructor
    · unfold add_row
      rw [if_neg]
      rintro ⟨-, h10, -⟩
      omega
    · refine ⟨fmtPhone (leadStrip (stripNonDigits (rowGet row "phone"))), ?_⟩
      have hlen : (leadStrip (stripNonDigits (rowGet row "phone"))).length
          = 10 := by
        rw [hdig]
        unfold leadStrip
        rw [if_pos ⟨h1, h11⟩, List.length_tail, h11]
      show (if (leadStrip (stripNonDigits (rowGet row "phone"))).length = 10
          then some (fmtPhone (leadStrip (stripNonDigits (rowGet row "phone"))))
          else none) =
        some (fmtPhone (leadStrip (stripNonDigits (rowGet row "phone"))))
      rw [if_pos hlen]

/-- Witness for C4 at a concrete record: `1-555-123-4567` strips to the
11-digit string `15551234567`, so the builder adds nothing for it, while
`normalize_phone` accepts it. -/
theorem C4_witness :
    add_row [] [("email", "a@x.com"), ("phone", "1-555-123-4567")] = [] ∧
    ∃ r, normalize_phone (some (rowGet
      [("email", "a@x.com"), ("phone", "1-555-123-4567")] "phone")) =
      some r :=
  (C4_strict_ten_digit_rule [] _).2 (by decide) (by decide)

/-- The column search of `qa_phone_numbers_with_global_map` (lines
111-112): `next((i for i, h in enumerate(header) if needle in h.lower()),
None)` — index of the first header cell containing `needle`
case-insensitively. -/
def findColIdx (needle : String) (header : List String) : Option ℕ :=
  List.findIdx? (fun h => strContains (pyLower h) needle) header

/-- The per-row body of `qa_phone_numbers_with_global_map` (lines
116-122): re-validate the row's own phone cell with `normalize_phone`;
on failure substitute the global-map entry for the row's trimmed,
lowercased email cell (or `''` when absent); write the result into the
phone column.  Cell access `row[i]` is modelled as `getD i ""` (the
theorems about this function carry in-range premises wherever the
distinction could matter). -/
def qaRow (pIdx eIdx : ℕ) (gmap : List (String × String))
    (row : List String) : List String :=
  let email := pyLower (pyStrip (row.getD eIdx ""))
  let phone :=
    match normalize_phone (some (row.getD pIdx "")) with
    | some p => p
    | none => (List.lookup email gmap).getD ""
  row.set pIdx phone

/-- `qa_phone_numbers_with_global_map` (lines 110-123): if either the
phone or the email column is missing, return the rows unchanged;
otherwise rewrite every row's phone cell. -/
def qa_phone_numbers_with_global_map (rows : List (List String))
    (header : List String) (gmap : List (String × String)) :
    List (List String) :=
  match findColIdx "phone" header, findColIdx "email" header with
  | some pIdx, some eIdx => rows.map (qaRow pIdx eIdx gmap)
  | _, _ => rows

section QaLemmas

lemma list_set_getD_self {α : Type} (l : List α) (i : ℕ) (d : α)
    (h : i < l.length) : l.set i (l.getD i d) = l := by
  induction l generalizing i with
  | nil => simp at h
  | cons c t ih =>
    cases i with
    | zero => simp [List.getD]
    | succ i =>
      simp only [List.length_cons, Nat.succ_lt_succ_iff] at h
      simp only [List.set, List.getD, List.get?_cons_succ]
      rw [show (t.get? i).getD d = t.getD i d from rfl, ih i h]

lemma list_get?_set_ne {α : Type} (l : List α) (i j : ℕ) (a : α)
    (h : j ≠ i) : (l.set i a).get? j = l.get? j := by
  induction l generalizing i j with
  | nil => simp
  | cons c t ih =>
    cases i with
    | zero =>
      cases j with
      | zero => exact absurd rfl h
      | succ j => simp [List.set]
    | succ i =>
      cases j with
      | zero => simp [List.set]
      | succ j =>
        simp only [List.set, List.get?_cons_succ]
        exact ih i j (fun hh => h (by rw [hh]))

lemma list_getD_eq_get?_getD {α : Type} (l : List α) (n : ℕ) (d : α) :
    l.getD n d = (l.get? n).getD d := rfl

end QaLemmas

/-- Counterexample to **C3** as stated: a phone cell that *validates* via
`normalize_phone` but is not yet in canonical form (`(555) 123-4567`) is
rewritten to `555.123.4567` — the output phone cell does not equal the
input phone cell even though the cell re-validates. -/
theorem C3_counterexample :
    (normalize_phone (some "(555) 123-4567")).isSome = true ∧
    qa_phone_numbers_with_global_map [["(555) 123-4567", "a@x.com"]]
      ["phone", "email"] [] = [["555.123.4567", "a@x.com"]] ∧
    ("555.123.4567" : String) ≠ "(555) 123-4567" := by
  decide

/-- **C3 (amended).** When both columns are found, the backfiller maps
`qaRow` over the rows; per row: if the phone cell validates via
`normalize_phone` with result `p`, the output phone cell is `p` —
determined by the cell alone, identical for any two global maps (the
index never overrides a validating cell); in particular a cell already in
`DDD.DDD.DDDD` form is left byte-for-byte unchanged.  Only a
non-validating phone cell is replaced by the index entry for the row's
EmailKey, or by `''` when the key is absent. -/
theorem C3_no_index_override (header : List String)
    (rows : List (List String)) (gmap gmap2 : List (String × String))
    (pIdx eIdx : ℕ)
    (hp : findColIdx "phone" header = some pIdx)
    (he : findColIdx "email" header = some eIdx)
    (row : List String) :
    qa_phone_numbers_with_global_map rows header gmap =
      rows.map (qaRow pIdx eIdx gmap) ∧
    (∀ p, normalize_phone (some (row.getD pIdx "")) = some p →
      qaRow pIdx eIdx gmap row = row.set pIdx p ∧
      qaRow pIdx eIdx gmap row = qaRow pIdx eIdx gmap2 row) ∧
    (isNormalizedPhone (row.getD pIdx "") = true → pIdx < row.length →
      qaRow pIdx eIdx gmap row = row) ∧
    (normalize_phone (some (row.getD pIdx "")) = none →
      qaRow pIdx eIdx gmap row =
        row.set pIdx ((List.lookup (pyLower (pyStrip (row.getD eIdx "")))
          gmap).getD "")) := by
  refine ⟨?_, ?_, ?_, ?_⟩
  · simp [qa_phone_numbers_with_global_map, hp, he]
  · intro p hnp
    constructor <;> simp only [qaRow, hnp]
  · intro hnorm hlt
    obtain ⟨d, h10, hd, hcell⟩ := isNormalizedPhone_destruct hnorm
    have hfix : normalize_phone (some (row.getD pIdx "")) =
        some (row.getD pIdx "") := by
      rw [hcell]
      exact normalize_phone_fmtPhone_fixed d h10 hd
    simp only [qaRow, hfix]
    exact list_set_getD_self row pIdx "" hlt
  · intro hnone
    simp only [qaRow, hnone]

/-- Witness for C3 (amended) at a concrete row: the phone cell
`555.123.4567` is already canonical, the global map holds the different
number `999.999.9999` for the row's email, and the row is returned
unchanged. -/
theorem C3_witness :
    qaRow 0 1 [("a@x.com", "999.999.9999")] ["555.123.4567", "a@x.com"] =
      ["555.123.4567", "a@x.com"] :=
  (C3_no_index_override ["phone", "email"] []
      [("a@x.com", "999.999.9999")] [("a@x.com", "999.999.9999")] 0 1
      (by decide) (by decide)
      ["555.123.4567", "a@x.com"]).2.2.1 (by decide) (by decide)

/-- **C9.** The backfiller is frame-preserving: when both a phone and an
email column are found, the output has exactly as many rows as the input,
each output row has the length of the corresponding input row, and every
cell outside the phone column is unchanged — only the phone column is
ever written. -/
theorem C9_frame_preserving (rows : List (List String))
    (header : List String) (gmap : List (String × String)) (pIdx eIdx : ℕ)
    (hp : findColIdx "phone" header = some pIdx)
    (he : findColIdx "email" header = some eIdx) :
    (qa_phone_numbers_with_global_map rows header gmap).length =
      rows.length ∧
    (∀ i, ((qa_phone_numbers_with_global_map rows header gmap).getD i
        []).length = (rows.getD i []).length) ∧
    (∀ i j, j ≠ pIdx →
      ((qa_phone_numbers_with_global_map rows header gmap).getD i
        []).getD j "" = ((rows.getD i []).getD j "")) := by
  have hq : qa_phone_numbers_with_global_map rows header gmap =
      rows.map (qaRow pIdx eIdx gmap) := by
    simp [qa_phone_numbers_with_global_map, hp, he]
  rw [hq]
  refine ⟨List.length_map rows _, ?_, ?_⟩
  · intro i
    simp only [list_getD_eq_get?_getD]
    cases hgi : rows.get? i with
    | none =>
      have hlen : (rows.map (qaRow pIdx eIdx gmap)).get? i = none := by
        rw [List.get?_map, hgi]
        rfl
      rw [hlen]
    | some row =>
      have hmap : (rows.map (qaRow pIdx eIdx gmap)).get? i =
          some (qaRow pIdx eIdx gmap row) := by
        rw [List.get?_map, hgi]
        rfl
      rw [hmap]
      simp only [Option.getD_some, qaRow, List.length_set]
  · intro i j hj
    simp only [list_getD_eq_get?_getD]
    cases hgi : rows.get? i with
    | none =>
      have hlen : (rows.map (qaRow pIdx eIdx gmap)).get? i = none := by
        rw [List.get?_map, hgi]
        rfl
      rw [hlen]
    | some row =>
      have hmap : (rows.map (qaRow pIdx eIdx gmap)).get? i =
          some (qaRow pIdx eIdx gmap row) := by
        rw [List.get?_map, hgi]
        rfl
      rw [hmap]
      simp only [Option.getD_some, qaRow]
      rw [list_get?_set_ne _ _ _ _ hj]

/-- Witness for C9 at concrete data: with header `["Phone", "Email"]`
(case-insensitive column match) the email cell of row 0 is untouched. -/
theorem C9_witness :
    ((qa_phone_numbers_with_global_map [["x", "A@B.c"],
        ["555.123.4567", "q"]] ["Phone", "Email"] []).getD 0 []).getD 1 ""
      = (([["x", "A@B.c"], ["555.123.4567", "q"]].getD 0
          []).getD 1 "") :=
  (C9_frame_preserving [["x", "A@B.c"], ["555.123.4567", "q"]]
      ["Phone", "Email"] [] 0 1 (by decide) (by decide)).2.2 0 1
      (by decide)

/-- The column-exclusion set of `import_csv_to_sheet` (line 134),
modelled as a list; Python-set membership is list membership. -/
def exclude_columns : List String :=
  ["amountpaid", "slotitemid", "hastime", "status", "starttime",
   "startdate", "phonetype", "offset", "endtime", "itemmemberid",
   "signupid", "signedupdate", "enddate", "waitlist"]

/-- Line 143: `{k: v for k, v in row.items() if k not in exclude_columns}`
— drop every field whose (original) name is in the exclusion set,
preserving order. -/
def filterRow (row : Record) : Record :=
  row.filter (fun kv => !(decide (kv.1 ∈ exclude_columns)))

/-- Python `s.strip('_')`: remove leading and trailing underscores. -/
def stripUnderscores (s : String) : String :=
  String.mk (((s.toList.dropWhile (fun c => c == '_')).reverse.dropWhile
      (fun c => c == '_')).reverse)

/-- Line 147: `key.replace('string', '').replace('__', '_').strip('_')`. -/
def cleanKey (k : String) : String :=
  stripUnderscores (pyReplace (pyReplace k "string" "") "__" "_")

/-- Python dict deletion `d.pop(key)` as it affects the ordered entries:
the entry with that key is removed. -/
def dictErase (k : String) (r : Record) : Record :=
  r.filter (fun kv => !(kv.1 == k))

/-- Python dict assignment `d[new_key] = value`: if the key is present its
value is updated in place; otherwise the pair is appended at the end. -/
def dictSet (k v : String) (r : Record) : Record :=
  if r.any (fun kv => kv.1 == k) then
    r.map (fun kv => if kv.1 == k then (k, v) else kv)
  else r ++ [(k, v)]

/-- One iteration of the rename loop of lines 144-148 for snapshot key
`key`: `if 'string' in key: filtered_row[new_key] =
filtered_row.pop(key)` with `new_key = cleanKey key`. -/
def renameStep (r : Record) (key : String) : Record :=
  if strContains key "string" then
    match List.lookup key r with
    | some v => dictSet (cleanKey key) v (dictErase key r)
    | none => r
  else r

/-- The rename loop of lines 144-148: iterate over a snapshot of the
current keys (`for key in list(filtered_row.keys())`) in order. -/
def renameLoop (r : Record) : Record :=
  (r.map Prod.fst).foldl renameStep r

/-- A Python naive `datetime.datetime` value (the result of the
tz-conversion chain of lines 155-163 after `replace(tzinfo=None)`). -/
structure PyDateTime where
  year : ℕ
  month : ℕ
  day : ℕ
  hour : ℕ
  minute : ℕ
  second : ℕ
  microsecond : ℕ
deriving DecidableEq

/-- Gregorian leap-year test, as in Python's `datetime` module. -/
def isLeap (y : ℕ) : Bool :=
  y % 4 == 0 && (y % 100 != 0 || y % 400 == 0)

/-- Month lengths of year `y` (January first). -/
def monthLengths (y : ℕ) : List ℕ :=
  [31, if isLeap y then 29 else 28, 31, 30, 31, 30, 31, 31, 30, 31, 30, 31]

/-- Days in year `y` before month `m` (1-based). -/
def daysBeforeMonth (y m : ℕ) : ℕ :=
  ((monthLengths y).take (m - 1)).sum

/-- Days before January 1 of year `y` in the proleptic Gregorian
calendar (year ≥ 1, as `datetime` requires). -/
def daysBeforeYear (y : ℕ) : ℕ :=
  365 * (y - 1) + (y - 1) / 4 + (y - 1) / 400 - (y - 1) / 100

/-- Python `datetime.date(y, m, d).toordinal()`: proleptic Gregorian
ordinal, with `0001-01-01` having ordinal 1.  Models the Python standard
library's date arithmetic, which `dt - epoch` (line 166) uses. -/
def toordinal (y m d : ℕ) : ℕ :=
  daysBeforeYear y + daysBeforeMonth y m + d

/-- Calendar-day distance from the spreadsheet epoch
`datetime.datetime(1899, 12, 30)` (line 165) to `dt`'s date. -/
def dayDist (dt : PyDateTime) : ℤ :=
  (toordinal dt.year dt.month dt.day : ℤ) - (toordinal 1899 12 30 : ℤ)

/-- Microseconds since local midnight of `dt`. -/
def todMicros (dt : PyDateTime) : ℕ :=
  (dt.hour * 3600 + dt.minute * 60 + dt.second) * 1000000 + dt.microsecond

/-- The microsecond total of the Python `timedelta` value
`delta = dt - datetime.datetime(1899, 12, 30)` of lines 165-166. -/
def serialTotal (dt : PyDateTime) : ℤ :=
  dayDist dt * 86400000000 + (todMicros dt : ℤ)

/-- Line 167: `delta.days + (delta.seconds + delta.microseconds / 1e6) /
86400`, where the `timedelta` fields come from normalizing `serialTotal`
by floor divmod (Euclidean division coincides with Python's floor
division for these positive divisors).  The Python float arithmetic is
modelled exactly over `ℚ`. -/
def serialOf (dt : PyDateTime) : ℚ :=
  ((serialTotal dt / 86400000000 : ℤ) : ℚ) +
    (((serialTotal dt % 86400000000 / 1000000 : ℤ) : ℚ) +
      ((serialTotal dt % 86400000000 % 1000000 : ℤ) : ℚ) / 1000000) / 86400

/-- `dt`'s local time of day as a fraction of an 86400-second day
(specification-side expression for stating C7). -/
def todFrac (dt : PyDateTime) : ℚ :=
  ((dt.hour : ℚ) * 3600 + (dt.minute : ℚ) * 60 + (dt.second : ℚ) +
    (dt.microsecond : ℚ) / 1000000) / 86400

/-- A cell value during the loop of lines 149-169: a Python `str`,
`None` (after `normalize_phone` fails), or a float (after date
conversion). -/
inductive Value where
  | str : String → Value
  | null : Value
  | num : ℚ → Value
deriving DecidableEq

/-- Python truthiness of a cell value, as used by `filtered_row[key]` in
the condition on line 153. -/
def pyTruthy : Value → Bool
  | .str s => !s.isEmpty
  | .null => false
  | .num q => q != 0

/-- Lines 150-151: `if 'phone' in key.lower(): filtered_row[key] =
normalize_phone(filtered_row[key])`.  At this point in the loop the cell
still holds its CSV string; the non-string branches are unreachable and
returned unchanged to keep the function total. -/
def phoneStep (key : String) (v : Value) : Value :=
  if strContains (pyLower key) "phone" then
    match v with
    | Value.str s =>
      match normalize_phone (some s) with
      | some r => Value.str r
      | none => Value.null
    | x => x
  else v

/-- Lines 152-169: the date-conversion block.  `eastern` abstracts the
external collaborators `dateutil.parser.parse` plus the pytz chain of
lines 155-163 (aware → UTC, naive treated as UTC, then converted to
US/Eastern and made naive): it returns the resulting naive local
datetime, or `none` whenever any step of the `try` block raises — in
which case `except Exception: pass` leaves the value unmodified. -/
def dateStep (eastern : String → Option PyDateTime) (key : String)
    (v : Value) : Value :=
  if strContains (pyLower key) "date" && pyTruthy v then
    match v with
    | Value.str s =>
      match eastern s with
      | some dt => Value.num (serialOf dt)
      | none => Value.str s
    | x => x
  else v

/-- The value loop of lines 149-169: each (renamed) field's value passes
through the phone step and then the date step; keys are not changed. -/
def valuesLoop (eastern : String → Option PyDateTime) (r : Record) :
    List (String × Value) :=
  r.map (fun kv => (kv.1, dateStep eastern kv.1 (phoneStep kv.1
    (Value.str kv.2))))

/-- The full per-row transformation of lines 141-170 (the spec's
RowTransformer): exclusion filter, rename loop, then the value loop. -/
def transformRow (eastern : String → Option PyDateTime) (row : Record) :
    List (String × Value) :=
  valuesLoop eastern (renameLoop (filterRow row))

section RenameLemmas

lemma keys_dictErase_subset {k x : String} {r : Record}
    (hx : x ∈ (dictErase k r).map Prod.fst) : x ∈ r.map Prod.fst := by
  unfold dictErase at hx
  simp only [List.mem_map] at hx ⊢
  obtain ⟨kv, hkv, rfl⟩ := hx
  exact ⟨kv, List.mem_of_mem_filter hkv, rfl⟩

lemma keys_dictSet_subset {k v x : String} {r : Record}
    (hx : x ∈ (dictSet k v r).map Prod.fst) :
    x = k ∨ x ∈ r.map Prod.fst := by
  unfold dictSet at hx
  split at hx
  · simp only [List.map_map, List.mem_map, Function.comp] at hx
    obtain ⟨kv, hkv, hfx⟩ := hx
    by_cases hk : (kv.1 == k) = true
    · left
      rw [← hfx, if_pos hk]
    · right
      rw [← hfx, if_neg hk]
      exact List.mem_map_of_mem Prod.fst hkv
  · simp only [List.map_append, List.mem_append, List.map_cons,
      List.map_nil, List.mem_singleton] at hx
    rcases hx with hx | hx
    · right
      exact hx
    · left
      exact hx

lemma renameStep_keys {r : Record} {key x : String}
    (hx : x ∈ (renameStep r key).map Prod.fst) :
    x ∈ r.map Prod.fst ∨
      (strContains key "string" = true ∧ x = cleanKey key) := by
  unfold renameStep at hx
  split at hx
  · next hs =>
    split at hx
    · next v hv =>
      rcases keys_dictSet_subset hx with h | h
      · exact Or.inr ⟨hs, h⟩
      · exact Or.inl (keys_dictErase_subset h)
    · exact Or.inl hx
  · exact Or.inl hx

lemma renameLoop_aux :
    ∀ (ks : List String) (r : Record) (x : String),
      x ∈ (ks.foldl renameStep r).map Prod.fst →
      x ∈ r.map Prod.fst ∨
        ∃ k0 ∈ ks, strContains k0 "string" = true ∧ cleanKey k0 = x := by
  intro ks
  induction ks with
  | nil => exact fun r x hx => Or.inl hx
  | cons k ks ih =>
    intro r x hx
    simp only [List.foldl_cons] at hx
    rcases ih (renameStep r k) x hx with h | ⟨k0, hk0, hs, hc⟩
    · rcases renameStep_keys h with h | ⟨hs, rfl⟩
      · exact Or.inl h
      · exact Or.inr ⟨k, List.mem_cons_self k ks, hs, rfl⟩
    · exact Or.inr ⟨k0, List.mem_cons_of_mem k hk0, hs, hc⟩

lemma valuesLoop_keys (eastern : String → Option PyDateTime) :
    ∀ r : Record, (valuesLoop eastern r).map Prod.fst = r.map Prod.fst := by
  intro r
  induction r with
  | nil => rfl
  | cons kv t ih =>
    simp only [valuesLoop, List.map_cons] at ih ⊢
    rw [ih]

lemma filterRow_keys {row : Record} {x : String}
    (hx : x ∈ (filterRow row).map Prod.fst) :
    x ∈ row.map Prod.fst ∧ x ∉ exclude_columns := by
  unfold filterRow at hx
  simp only [List.mem_map] at hx
  obtain ⟨kv, hkv, rfl⟩ := hx
  have hprop := List.of_mem_filter hkv
  rw [Bool.not_eq_true', decide_eq_false_iff_not] at hprop
  exact ⟨List.mem_map_of_mem Prod.fst (List.mem_of_mem_filter hkv), hprop⟩

end RenameLemmas

/-- Counterexample to **C5** as stated: the input field `statusstring` is
not in the exclusion set, survives the exclusion filter, and is then
renamed to `status` — which *is* in the exclusion set.  The transformer
emits a field whose cleaned name is a member of the exclusion set. -/
theorem C5_counterexample :
    (transformRow (fun _ => none) [("statusstring", "v")]).map Prod.fst =
      ["status"] ∧
    "status" ∈ exclude_columns := by
  decide

/-- **C5 (amended).** Every field whose original name is in the exclusion
set is dropped; a field can be emitted under a name in the exclusion set
only when that name is the cleaned form of a non-excluded original field
name containing the substring `string` (e.g. `statusstring` → `status`). -/
theorem C5_exclusion_leak_origin (eastern : String → Option PyDateTime)
    (row : Record) (x : String)
    (hmem : x ∈ (transformRow eastern row).map Prod.fst)
    (hexc : x ∈ exclude_columns) :
    ∃ k0, k0 ∈ row.map Prod.fst ∧ k0 ∉ exclude_columns ∧
      strContains k0 "string" = true ∧ cleanKey k0 = x := by
  unfold transformRow at hmem
  rw [valuesLoop_keys] at hmem
  unfold renameLoop at hmem
  rcases renameLoop_aux _ _ _ hmem with h | ⟨k0, hk0, hs, hc⟩
  · exact absurd hexc (filterRow_keys h).2
  · obtain ⟨hk0row, hk0notexc⟩ := filterRow_keys hk0
    exact ⟨k0, hk0row, hk0notexc, hs, hc⟩

/-- Witness for C5 (amended): for the emitted excluded name `status` in
the transform of `[("statusstring", "v")]`, an originating
`string`-containing field exists. -/
theorem C5_witness :
    ∃ k0, k0 ∈ ([("statusstring", "v")] : Record).map Prod.fst ∧
      k0 ∉ exclude_columns ∧ strContains k0 "string" = true ∧
      cleanKey k0 = "status" :=
  C5_exclusion_leak_origin (fun _ => none) [("statusstring", "v")]
    "status" (by decide) (by decide)

section DateLemmas

lemma pyTruthy_str_of_ne {s : String} (hs : s ≠ "") :
    pyTruthy (Value.str s) = true := by
  unfold pyTruthy
  rw [Bool.not_eq_true']
  rw [← Bool.not_eq_true]
  intro hemp
  exact hs ((String.isEmpty_iff s).mp hemp)

lemma todMicros_lt (dt : PyDateTime) (hh : dt.hour < 24)
    (hm : dt.minute < 60) (hs : dt.second < 60)
    (hu : dt.microsecond < 1000000) :
    todMicros dt < 86400000000 := by
  unfold todMicros
  have h1 : dt.hour * 3600 ≤ 23 * 3600 := Nat.mul_le_mul_right 3600 (by omega)
  have h2 : dt.minute * 60 ≤ 59 * 60 := Nat.mul_le_mul_right 60 (by omega)
  have h3 : dt.hour * 3600 + dt.minute * 60 + dt.second ≤ 86399 := by omega
  have h4 : (dt.hour * 3600 + dt.minute * 60 + dt.second) * 1000000 ≤
      86399 * 1000000 := Nat.mul_le_mul_right 1000000 h3
  omega

lemma serialOf_eq (dt : PyDateTime) (hh : dt.hour < 24)
    (hm : dt.minute < 60) (hs : dt.second < 60)
    (hu : dt.microsecond < 1000000) :
    serialOf dt = (dayDist dt : ℚ) + todFrac dt := by
  have htod := todMicros_lt dt hh hm hs hu
  have htodZ : (todMicros dt : ℤ) < 86400000000 := by exact_mod_cast htod
  have htod0 : (0 : ℤ) ≤ (todMicros dt : ℤ) := Int.ofNat_nonneg _
  have h1 : (dayDist dt * 86400000000 + (todMicros dt : ℤ)) / 86400000000 =
      dayDist dt := by
    rw [add_comm, Int.add_mul_ediv_right _ _ (by norm_num : (86400000000 : ℤ) ≠ 0),
      Int.ediv_eq_zero_of_lt htod0 htodZ, zero_add]
  have h2 : (dayDist dt * 86400000000 + (todMicros dt : ℤ)) % 86400000000 =
      (todMicros dt : ℤ) := by
    rw [add_comm, Int.add_mul_emod_self, Int.emod_eq_of_lt htod0 htodZ]
  have hsplit : (todMicros dt : ℤ) =
      ((dt.hour * 3600 + dt.minute * 60 + dt.second : ℕ) : ℤ) * 1000000 +
        (dt.microsecond : ℤ) := by
    unfold todMicros
    push_cast
    ring
  have hu0 : (0 : ℤ) ≤ (dt.microsecond : ℤ) := Int.ofNat_nonneg _
  have huZ : (dt.microsecond : ℤ) < 1000000 := by exact_mod_cast hu
  have h3 : (todMicros dt : ℤ) / 1000000 =
      ((dt.hour * 3600 + dt.minute * 60 + dt.second : ℕ) : ℤ) := by
    rw [hsplit, add_comm, Int.add_mul_ediv_right _ _
      (by norm_num : (1000000 : ℤ) ≠ 0),
      Int.ediv_eq_zero_of_lt hu0 huZ, zero_add]
  have h4 : (todMicros dt : ℤ) % 1000000 = (dt.microsecond : ℤ) := by
    rw [hsplit, add_comm, Int.add_mul_emod_self, Int.emod_eq_of_lt hu0 huZ]
  unfold serialOf serialTotal
  rw [h1, h2, h3, h4]
  unfold todFrac
  push_cast
  ring

lemma todFrac_nonneg (dt : PyDateTime) : 0 ≤ todFrac dt := by
  unfold todFrac
  positivity

lemma todFrac_lt_one (dt : PyDateTime) (hh : dt.hour < 24)
    (hm : dt.minute < 60) (hs : dt.second < 60)
    (hu : dt.microsecond < 1000000) : todFrac dt < 1 := by
  unfold todFrac
  rw [div_lt_one (by norm_num : (0 : ℚ) < 86400)]
  have h1 : (dt.hour : ℚ) ≤ 23 := by exact_mod_cast Nat.le_of_lt_succ hh
  have h2 : (dt.minute : ℚ) ≤ 59 := by exact_mod_cast Nat.le_of_lt_succ hm
  have h3 : (dt.second : ℚ) ≤ 59 := by exact_mod_cast Nat.le_of_lt_succ hs
  have h4 : (dt.microsecond : ℚ) / 1000000 < 1 := by
    rw [div_lt_one (by norm_num : (0 : ℚ) < 1000000)]
    exact_mod_cast hu
  linarith

end DateLemmas

/-- **C6.** Date-conversion failure is never fatal: for every field whose
(cleaned) name contains `date` case-insensitively and whose value is a
non-empty string, if parsing the value raises (`eastern` returns `none`),
the date block leaves the original string value unmodified — the
`except Exception: pass` of lines 168-169 surfaces no error — and the
value loop still produces the row (every field, in order, keys
unchanged). -/
theorem C6_date_parse_failure_soft (eastern : String → Option PyDateTime)
    (key s : String) (row : Record)
    (hk : strContains (pyLower key) "date" = true) (hs : s ≠ "")
    (hfail : eastern s = none) :
    dateStep eastern key (Value.str s) = Value.str s ∧
    (valuesLoop eastern row).map Prod.fst = row.map Prod.fst ∧
    (valuesLoop eastern row).length = row.length := by
  refine ⟨?_, valuesLoop_keys eastern row, by simp [valuesLoop]⟩
  unfold dateStep
  rw [if_pos]
  · simp only [hfail]
  · rw [hk, pyTruthy_str_of_ne hs]
    rfl

/-- Witness for C6 at a concrete field: key `signupdate`, unparseable
value `not a date`, with a parser that always fails. -/
theorem C6_witness :
    dateStep (fun _ => none) "signupdate" (Value.str "not a date") =
      Value.str "not a date" ∧
    (valuesLoop (fun _ => none) [("name", "x")]).map Prod.fst =
      ([("name", "x")] : Record).map Prod.fst ∧
    (valuesLoop (fun _ => none) [("name", "x")]).length =
      ([("name", "x")] : Record).length :=
  C6_date_parse_failure_soft (fun _ => none) "signupdate" "not a date"
    [("name", "x")] (by decide) (by decide) rfl

/-- **C7.** For every date field whose non-empty string value parses, the
date block outputs the spreadsheet serial of the US/Eastern naive local
datetime `dt` produced by the (abstractly modelled) parse-and-convert
chain of lines 155-163: the serial equals the calendar-day distance from
1899-12-30 plus the local time of day as a fraction of 86400 seconds; its
floor is exactly that day distance and its fractional part exactly that
time-of-day fraction.  (`datetime` guarantees the field bounds assumed
here; Python's float is modelled by exact rational arithmetic.) -/
theorem C7_date_serial (eastern : String → Option PyDateTime)
    (key s : String) (dt : PyDateTime)
    (hk : strContains (pyLower key) "date" = true) (hs : s ≠ "")
    (hp : eastern s = some dt)
    (hh : dt.hour < 24) (hm : dt.minute < 60) (hsec : dt.second < 60)
    (hu : dt.microsecond < 1000000) :
    dateStep eastern key (Value.str s) = Value.num (serialOf dt) ∧
    serialOf dt = (dayDist dt : ℚ) + todFrac dt ∧
    Int.floor (serialOf dt) = dayDist dt ∧
    serialOf dt - Int.floor (serialOf dt) = todFrac dt := by
  have heq := serialOf_eq dt hh hm hsec hu
  have h0 := todFrac_nonneg dt
  have h1 := todFrac_lt_one dt hh hm hsec hu
  have hfloor : Int.floor (serialOf dt) = dayDist dt := by
    rw [heq, add_comm, Int.floor_add_int,
      Int.floor_eq_zero_iff.mpr ⟨h0, h1⟩, zero_add]
  refine ⟨?_, heq, hfloor, by rw [hfloor, heq]; ring⟩
  unfold dateStep
  rw [if_pos]
  · simp only [hp]
  · rw [hk, pyTruthy_str_of_ne hs]
    rfl

/-- Witness for C7 at a concrete local datetime, 2025-07-04 18:30 Eastern:
the serial is the day distance 45842 plus half-plus-a-bit of a day. -/
theorem C7_witness :
    dateStep (fun _ => some (PyDateTime.mk 2025 7 4 18 30 0 0)) "startdate"
        (Value.str "2025-07-04T18:30:00-04:00") =
      Value.num (serialOf (PyDateTime.mk 2025 7 4 18 30 0 0)) ∧
    Int.floor (serialOf (PyDateTime.mk 2025 7 4 18 30 0 0)) =
      dayDist (PyDateTime.mk 2025 7 4 18 30 0 0) :=
  ⟨(C7_date_serial (fun _ => some (PyDateTime.mk 2025 7 4 18 30 0 0))
      "startdate" "2025-07-04T18:30:00-04:00" (PyDateTime.mk 2025 7 4 18 30 0 0)
      (by decide) (by decide) rfl (by decide) (by decide) (by decide)
      (by decide)).1,
   (C7_date_serial (fun _ => some (PyDateTime.mk 2025 7 4 18 30 0 0))
      "startdate" "2025-07-04T18:30:00-04:00" (PyDateTime.mk 2025 7 4 18 30 0 0)
      (by decide) (by decide) rfl (by decide) (by decide) (by decide)
      (by decide)).2.2.1⟩

/-- Outcome of `workbook.worksheet(sheet_name)` in lines 127-131: success
(then `worksheet.clear()`), the caught `WorksheetNotFound` exception
(then `add_worksheet`), or any other raised exception — which that
`try/except` does *not* catch. -/
inductive WsLookup where
  | found : WsLookup
  | notFound : WsLookup
  | raised : String → WsLookup
deriving DecidableEq

/-- One input file together with the behaviour of the external
collaborators during its processing: what the worksheet lookup does,
what reading the CSV yields (`open`/`csv.DictReader` may raise), and
whether the publish step (`worksheet.update` / `workbook.batch_update`,
lines 183-225) raises. -/
structure CsvFile where
  name : String
  wsLookup : WsLookup
  readRes : Except String (List Record)
  publishRes : Except String Unit

/-- What one `import_csv_to_sheet` call did when it returned normally. -/
inductive FileOutcome where
  | published : FileOutcome
  | publishFailed : String → FileOutcome
  | emptyData : FileOutcome
deriving DecidableEq

/-- The error flow of `import_csv_to_sheet` (lines 125-229).
`Except.error` is an uncaught exception escaping the call; `Except.ok`
carries what the call did: `published` (line 226), `publishFailed` for
the *caught* publish exception of lines 227-229 (printed, early return),
or `emptyData` when `if filtered_data:` (line 173) is false and nothing
is published.  The pure per-row transformation of lines 133-179 is total
(its inner `try` swallows date-parse errors, see `dateStep`), so it
contributes no error path; the worksheet lookup, the file read and the
publish step are the only raise sites, and only the publish raise is
caught. -/
def import_csv_to_sheet (f : CsvFile) : Except String FileOutcome :=
  match f.wsLookup with
  | WsLookup.raised e => Except.error e
  | _ =>
    match f.readRes with
    | Except.error e => Except.error e
    | Except.ok rows =>
      if rows.isEmpty then Except.ok FileOutcome.emptyData
      else
        match f.publishRes with
        | Except.error e => Except.ok (FileOutcome.publishFailed e)
        | Except.ok _ => Except.ok FileOutcome.published

/-- One iteration of the `main` loop (lines 314-316): there is no
`try/except` around `import_csv_to_sheet`, so an uncaught exception
aborts the remaining files. -/
def mainStep (acc : Except String (List (String × FileOutcome)))
    (f : CsvFile) : Except String (List (String × FileOutcome)) :=
  match acc with
  | Except.error e => Except.error e
  | Except.ok done =>
    match import_csv_to_sheet f with
    | Except.error e => Except.error e
    | Except.ok o => Except.ok (done ++ [(f.name, o)])

/-- The `main` loop over all files (lines 314-316), collecting for each
attempted file its outcome. -/
def mainLoop (files : List CsvFile) :
    Except String (List (String × FileOutcome)) :=
  files.foldl mainStep (Except.ok [])

section MainLoopLemmas

lemma import_ok_of (f : CsvFile) (rows : List Record)
    (hrows : f.readRes = Except.ok rows)
    (hw : ∀ e, f.wsLookup ≠ WsLookup.raised e) :
    ∃ o, import_csv_to_sheet f = Except.ok o := by
  unfold import_csv_to_sheet
  cases hws : f.wsLookup with
  | raised e => exact absurd hws (hw e)
  | found =>
    simp only [hws, hrows]
    by_cases hemp : rows.isEmpty
    · simp only [if_pos hemp]
      exact ⟨_, rfl⟩
    · simp only [if_neg hemp]
      cases hpub : f.publishRes with
      | error e => exact ⟨_, rfl⟩
      | ok u => exact ⟨_, rfl⟩
  | notFound =>
    simp only [hws, hrows]
    by_cases hemp : rows.isEmpty
    · simp only [if_pos hemp]
      exact ⟨_, rfl⟩
    · simp only [if_neg hemp]
      cases hpub : f.publishRes with
      | error e => exact ⟨_, rfl⟩
      | ok u => exact ⟨_, rfl⟩

lemma mainLoop_aux :
    ∀ (files : List CsvFile) (acc : List (String × FileOutcome)),
      (∀ f ∈ files, (∃ rows, f.readRes = Except.ok rows) ∧
        ∀ e, f.wsLookup ≠ WsLookup.raised e) →
      ∃ l, files.foldl mainStep (Except.ok acc) = Except.ok l ∧
        l.map Prod.fst = acc.map Prod.fst ++ files.map CsvFile.name := by
  intro files
  induction files with
  | nil => exact fun acc h => ⟨acc, rfl, by simp⟩
  | cons f files ih =>
    intro acc h
    obtain ⟨⟨rows, hrows⟩, hws⟩ := h f (List.mem_cons_self f files)
    obtain ⟨o, ho⟩ := import_ok_of f rows hrows hws
    simp only [List.foldl_cons, mainStep, ho]
    obtain ⟨l, hl, hmap⟩ :=
      ih (acc ++ [(f.name, o)]) (fun g hg => h g (List.mem_cons_of_mem f hg))
    refine ⟨l, hl, ?_⟩
    rw [hmap]
    simp

end MainLoopLemmas

/-- Counterexample to **C8** as stated: a failure while *reading* the
first file (an `IOError` from `open(csv_file)`, line 139) is not caught
anywhere — `main` (lines 314-316) has no `try/except` around
`import_csv_to_sheet` — so the run aborts with the error and the second,
perfectly fine file is never attempted. -/
theorem C8_counterexample :
    mainLoop
      [CsvFile.mk "a.csv" WsLookup.found (Except.error "IOError")
         (Except.ok ()),
       CsvFile.mk "b.csv" WsLookup.found (Except.ok [[("email", "x")]])
         (Except.ok ())] =
      Except.error "IOError" := rfl

/-- **C8 (amended).** Only per-file *publish* failures are isolated: for
every file list in which each file's CSV read succeeds and its worksheet
lookup does not raise an uncaught exception (success or the caught
`WorksheetNotFound` are both fine), the run completes and every file is
attempted in order — publish failures are caught and reported per file
and never abort the loop.  Failures in reading a file or other worksheet
lookup errors propagate and abort the remaining files. -/
theorem C8_publish_failures_isolated (files : List CsvFile)
    (h : ∀ f ∈ files, (∃ rows, f.readRes = Except.ok rows) ∧
      ∀ e, f.wsLookup ≠ WsLookup.raised e) :
    ∃ l, mainLoop files = Except.ok l ∧
      l.map Prod.fst = files.map CsvFile.name := by
  obtain ⟨l, hl, hmap⟩ := mainLoop_aux files [] h
  exact ⟨l, hl, by simpa using hmap⟩

/-- Witness for C8 (amended): the first file's publish raises (caught and
reported), the second file's worksheet is missing (caught
`WorksheetNotFound`); both files are attempted and the loop finishes. -/
theorem C8_witness :
    ∃ l, mainLoop
        [CsvFile.mk "a.csv" WsLookup.found (Except.ok [[("email", "x")]])
           (Except.error "APIError"),
         CsvFile.mk "b.csv" WsLookup.notFound
           (Except.ok [[("email", "y")]]) (Except.ok ())] =
        Except.ok l ∧
      l.map Prod.fst =
        ([CsvFile.mk "a.csv" WsLookup.found (Except.ok [[("email", "x")]])
            (Except.error "APIError"),
          CsvFile.mk "b.csv" WsLookup.notFound
            (Except.ok [[("email", "y")]]) (Except.ok ())].map
          CsvFile.name) := by
  refine C8_publish_failures_isolated _ ?_
  intro f hf
  simp only [List.mem_cons, List.not_mem_nil, or_false] at hf
  rcases hf with rfl | rfl
  · exact ⟨⟨_, rfl⟩, fun e h => WsLookup.noConfusion h⟩
  · exact ⟨⟨_, rfl⟩, fun e h => WsLookup.noConfusion h⟩
